import Mathlib

/-!
Verification of the weigh-station console core: ticket storage, the
scale-stream framer, the stability detector, and the inbound/outbound
transaction logic, shallowly embedded from the TypeScript sources.
Weights and monetary amounts are modelled as exact rationals.
-/

namespace Asphalt

/-- Ticket status, from `types.ts` (`enum TicketStatus { OPEN, CLOSED }`). -/
inductive TicketStatus where
  | OPEN
  | CLOSED
deriving DecidableEq, Repr

/-- Weigh ticket record, from `types.ts` (`interface Ticket`).
Optional TypeScript fields become `Option`; numeric weights, rates and
costs are exact rationals; timestamps are naturals. -/
structure Ticket where
  id : String
  licensePlate : String
  companyName : Option String
  materialType : String
  inboundWeight : ℚ
  inboundTime : ℕ
  inboundImage : String
  outboundWeight : Option ℚ
  outboundTime : Option ℕ
  outboundImage : Option String
  netWeight : Option ℚ
  ratePerKg : Option ℚ
  totalCost : Option ℚ
  status : TicketStatus
deriving DecidableEq, Repr

/-- JavaScript `Array.prototype.findIndex`, with the absent case (`-1`)
rendered as `none`. Used by `saveTicket` in `storageService.ts`. -/
def findIndexJs (p : Ticket → Bool) : List Ticket → Option ℕ
  | [] => none
  | t :: ts => if p t then some 0 else (findIndexJs p ts).map (fun i => i + 1)

/-- Storage upsert from `storageService.ts`: `saveTicket` looks up the index
of an existing record with the same id; if found it overwrites that slot,
otherwise it pushes the ticket at the end. The stored collection is the
explicit state here (localStorage in the source). -/
def saveTicket (tickets : List Ticket) (ticket : Ticket) : List Ticket :=
  match findIndexJs (fun t => decide (t.id = ticket.id)) tickets with
  | some i => tickets.set i ticket
  | none => tickets ++ [ticket]

/-- Predicate used by `findOpenTicketByPlate` in `storageService.ts`:
the ticket is OPEN and its plate equals the queried plate exactly. -/
def openPlateMatch (plate : String) (t : Ticket) : Bool :=
  decide (t.status = TicketStatus.OPEN) && decide (t.licensePlate = plate)

/-- Lookup from `storageService.ts`: returns `none` for the sentinel plate
"UNKNOWN", otherwise the first stored OPEN ticket whose plate matches. -/
def findOpenTicketByPlate (tickets : List Ticket) (plate : String) : Option Ticket :=
  if plate = "UNKNOWN" then none
  else tickets.find? (openPlateMatch plate)

/-! Helper lemmas about the storage primitives. -/

theorem findIndexJs_eq_none {p : Ticket → Bool} {l : List Ticket}
    (h : ∀ t ∈ l, p t = false) : findIndexJs p l = none := by
  induction l with
  | nil => rfl
  | cons a l ih =>
      have ha : p a = false := h a (List.mem_cons_self a l)
      simp [findIndexJs, ha, ih (fun t ht => h t (List.mem_cons_of_mem a ht))]

theorem findIndexJs_append_singleton {p : Ticket → Bool} {l : List Ticket} {x : Ticket}
    (h : ∀ t ∈ l, p t = false) (hx : p x = true) :
    findIndexJs p (l ++ [x]) = some l.length := by
  induction l with
  | nil => simp [findIndexJs, hx]
  | cons a l ih =>
      have ha : p a = false := h a (List.mem_cons_self a l)
      simp [findIndexJs, ha, ih (fun t ht => h t (List.mem_cons_of_mem a ht))]

theorem set_append_singleton_length (l : List Ticket) (x y : Ticket) :
    (l ++ [x]).set l.length y = l ++ [y] := by
  induction l with
  | nil => rfl
  | cons a l ih => simp [List.set, ih]

theorem mem_saveTicket {tickets : List Ticket} {ticket t : Ticket}
    (h : t ∈ saveTicket tickets ticket) : t ∈ tickets ∨ t = ticket := by
  unfold saveTicket at h
  cases hfi : findIndexJs (fun u => decide (u.id = ticket.id)) tickets with
  | some i =>
      rw [hfi] at h
      exact List.mem_or_eq_of_mem_set h
  | none =>
      rw [hfi] at h
      rcases List.mem_append.mp h with h1 | h1
      · exact Or.inl h1
      · exact Or.inr (List.mem_singleton.mp h1)

/-- Claim C2: `findOpenTicketByPlate` returns `none` for the sentinel plate
"UNKNOWN" regardless of stored data, returns `none` when no OPEN ticket has
exactly the queried plate, and otherwise deterministically returns the
earliest-stored OPEN ticket whose plate matches exactly (every ticket stored
before the returned one fails the match). -/
theorem findOpenTicketByPlate_spec (tickets : List Ticket) (plate : String) :
    findOpenTicketByPlate tickets "UNKNOWN" = none ∧
    ((∀ t ∈ tickets, ¬ (t.status = TicketStatus.OPEN ∧ t.licensePlate = plate)) →
      findOpenTicketByPlate tickets plate = none) ∧
    (plate ≠ "UNKNOWN" →
      ∀ t ∈ tickets, t.status = TicketStatus.OPEN → t.licensePlate = plate →
        ∃ u, findOpenTicketByPlate tickets plate = some u) ∧
    (∀ t, findOpenTicketByPlate tickets plate = some t →
      t.status = TicketStatus.OPEN ∧ t.licensePlate = plate ∧
      ∃ l1 l2, tickets = l1 ++ t :: l2 ∧
        ∀ u ∈ l1, ¬ (u.status = TicketStatus.OPEN ∧ u.licensePlate = plate)) := by
  refine ⟨by simp [findOpenTicketByPlate], ?_, ?_, ?_⟩
  · intro hnone
    by_cases hu : plate = "UNKNOWN"
    · simp [findOpenTicketByPlate, hu]
    · have : ∀ t ∈ tickets, openPlateMatch plate t = false := by
        intro t ht
        have := hnone t ht
        simp [openPlateMatch]
        intro hs
        intro hp
        exact this ⟨hs, hp⟩
      simp [findOpenTicketByPlate, hu, List.find?_eq_none.mpr (by
        intro t ht
        simpa using this t ht)]
  · intro hu t ht hst hpl
    have hsome : (tickets.find? (openPlateMatch plate)).isSome = true := by
      rw [List.find?_isSome]
      exact ⟨t, ht, by simp [openPlateMatch, hst, hpl]⟩
    rw [Option.isSome_iff_exists] at hsome
    obtain ⟨u, hu'⟩ := hsome
    exact ⟨u, by simp [findOpenTicketByPlate, hu, hu']⟩
  · intro t hfind
    by_cases hu : plate = "UNKNOWN"
    · simp [findOpenTicketByPlate, hu] at hfind
    · simp only [findOpenTicketByPlate, hu, if_neg] at hfind
      have hmatch : openPlateMatch plate t = true := List.find?_some hfind
      have hsp : t.status = TicketStatus.OPEN ∧ t.licensePlate = plate := by
        simpa [openPlateMatch] using hmatch
      refine ⟨hsp.1, hsp.2, ?_⟩
      clear hsp hmatch
      induction tickets with
      | nil => simp at hfind
      | cons a l ih =>
          by_cases ha : openPlateMatch plate a = true
          · rw [List.find?_cons_of_pos _ ha] at hfind
            have haeq : a = t := by simpa using hfind
            refine ⟨[], l, by simp [haeq], by simp⟩
          · rw [List.find?_cons_of_neg _ (by simpa using ha)] at hfind
            obtain ⟨l1, l2, hsplit, hmiss⟩ := ih hfind
            refine ⟨a :: l1, l2, by simp [hsplit], ?_⟩
            intro u hu'
            rcases List.mem_cons.mp hu' with rfl | hmem
            · intro hcontr
              exact ha (by simp [openPlateMatch, hcontr.1, hcontr.2])
            · exact hmiss u hmem

/-- Witness for C2 at a concrete store and plate. -/
theorem findOpenTicketByPlate_spec_witness :
    findOpenTicketByPlate [] "ABC123" = none := by
  have h := (findOpenTicketByPlate_spec [] "ABC123").2.1
  exact h (by intro t ht; simp at ht)

/-- Claim C3: `saveTicket` is an insert-or-replace by id. Appending a ticket
whose id is fresh for the collection, then upserting a ticket with the same
id but modified fields, leaves the collection equal to the original records
followed by exactly the updated ticket, so exactly one record with that id
exists, in place, with all other records and their order preserved. -/
theorem saveTicket_upsert_roundtrip (tickets : List Ticket) (t1 t2 : Ticket)
    (hid : t2.id = t1.id) (hfresh : ∀ u ∈ tickets, u.id ≠ t1.id) :
    saveTicket (saveTicket tickets t1) t2 = tickets ++ [t2] ∧
    ((tickets ++ [t2]).filter (fun u => decide (u.id = t2.id))).length = 1 := by
  have hmiss1 : ∀ u ∈ tickets, (decide (u.id = t1.id) : Bool) = false := by
    intro u hu
    simpa using hfresh u hu
  have hstep1 : saveTicket tickets t1 = tickets ++ [t1] := by
    unfold saveTicket
    rw [findIndexJs_eq_none hmiss1]
  have hmiss2 : ∀ u ∈ tickets, (decide (u.id = t2.id) : Bool) = false := by
    intro u hu
    simp [hid]
    exact hfresh u hu
  have hstep2 : saveTicket (tickets ++ [t1]) t2 = tickets ++ [t2] := by
    unfold saveTicket
    rw [findIndexJs_append_singleton hmiss2 (by simp [hid])]
    exact set_append_singleton_length tickets t1 t2
  constructor
  · rw [hstep1, hstep2]
  · rw [List.filter_append]
    have hnil : tickets.filter (fun u => decide (u.id = t2.id)) = [] := by
      apply List.filter_eq_nil_iff.mpr
      intro u hu
      simp [hmiss2 u hu]
    simp [hnil]

/-- Witness for C3 at a concrete collection: a fresh insert of id "a"
followed by an upsert of the same id with a changed material field. -/
theorem saveTicket_upsert_roundtrip_witness :
    saveTicket (saveTicket []
        { id := "a", licensePlate := "ABC123", companyName := none,
          materialType := "Mixed Metal", inboundWeight := 20000, inboundTime := 1,
          inboundImage := "", outboundWeight := none, outboundTime := none,
          outboundImage := none, netWeight := none, ratePerKg := none,
          totalCost := none, status := TicketStatus.OPEN })
        { id := "a", licensePlate := "ABC123", companyName := none,
          materialType := "Cardboard", inboundWeight := 20000, inboundTime := 1,
          inboundImage := "", outboundWeight := none, outboundTime := none,
          outboundImage := none, netWeight := none, ratePerKg := none,
          totalCost := none, status := TicketStatus.OPEN } =
      [{ id := "a", licensePlate := "ABC123", companyName := none,
         materialType := "Cardboard", inboundWeight := 20000, inboundTime := 1,
         inboundImage := "", outboundWeight := none, outboundTime := none,
         outboundImage := none, netWeight := none, ratePerKg := none,
         totalCost := none, status := TicketStatus.OPEN }] := by
  have h := (saveTicket_upsert_roundtrip []
    { id := "a", licensePlate := "ABC123", companyName := none,
      materialType := "Mixed Metal", inboundWeight := 20000, inboundTime := 1,
      inboundImage := "", outboundWeight := none, outboundTime := none,
      outboundImage := none, netWeight := none, ratePerKg := none,
      totalCost := none, status := TicketStatus.OPEN }
    { id := "a", licensePlate := "ABC123", companyName := none,
      materialType := "Cardboard", inboundWeight := 20000, inboundTime := 1,
      inboundImage := "", outboundWeight := none, outboundTime := none,
      outboundImage := none, netWeight := none, ratePerKg := none,
      totalCost := none, status := TicketStatus.OPEN }
    rfl (by intro u hu; simp at hu)).1
  simpa using h

/-! Model of JavaScript number handling used by the console: `parseFloat`
restricted to the numeric grammar reachable from the HTML number input
(optional sign, digits, decimal point, exponent; the `Infinity` literal is
not a valid floating-point string for a number input and is omitted).
A `none` result stands for NaN; a `some` result is the exact rational
value of the literal. The number the program actually holds is a binary64
double: `jsNumberOfRat` below applies the binary64 overflow rule to that
exact value, so grammar-valid literals such as "1e999" become Infinity as
they do in JavaScript (rounding of in-range values to the nearest double
is not modelled; the finite case carries the exact value). -/

/-- Whitespace characters skipped by JavaScript string trimming and
by `parseFloat` before the number. -/
def jsWhitespace (c : Char) : Bool :=
  c = ' ' || c = '\t' || c = '\n' || c = '\r' || c = '\x0b' || c = '\x0c'

/-- Value of a digit string read in base 10. -/
def digitsToNat (ds : List Char) : ℕ :=
  ds.foldl (fun n c => 10 * n + (c.toNat - 48)) 0

/-- Exact value of an integer part and a fractional digit part. -/
def decValue (ip fp : List Char) : ℚ :=
  (digitsToNat ip : ℚ) + (digitsToNat fp : ℚ) / (10 : ℚ) ^ fp.length

/-- Apply an exponent digit string (if any) to a mantissa value. -/
def applyExpDigits (v : ℚ) (neg : Bool) (r : List Char) : ℚ :=
  let ds := r.takeWhile Char.isDigit
  if ds.isEmpty then v
  else if neg then v / (10 : ℚ) ^ digitsToNat ds
  else v * (10 : ℚ) ^ digitsToNat ds

/-- Exponent sign handling after the `e` marker. -/
def applyExpSign (v : ℚ) (r : List Char) : ℚ :=
  match r with
  | '-' :: d => applyExpDigits v true d
  | '+' :: d => applyExpDigits v false d
  | d => applyExpDigits v false d

/-- Optional exponent part of a decimal literal. -/
def applyExp (v : ℚ) (rest : List Char) : ℚ :=
  match rest with
  | 'e' :: r => applyExpSign v r
  | 'E' :: r => applyExpSign v r
  | _ => v

/-- Longest decimal-literal value at the front of the input
(digits, optional point, optional fraction digits, optional exponent);
`none` when no digit is present where the grammar requires one. -/
def parseDecimal (r : List Char) : Option ℚ :=
  let ip := r.takeWhile Char.isDigit
  let r1 := r.dropWhile Char.isDigit
  match r1 with
  | '.' :: r2 =>
      let fp := r2.takeWhile Char.isDigit
      if ip.isEmpty && fp.isEmpty then none
      else some (applyExp (decValue ip fp) (r2.dropWhile Char.isDigit))
  | _ => if ip.isEmpty then none else some (applyExp (decValue ip []) r1)

/-- JavaScript `parseFloat` on the manual-entry string: skip leading
whitespace, optional sign, then the longest decimal literal; NaN is `none`. -/
def jsParseFloat (s : List Char) : Option ℚ :=
  match s.dropWhile jsWhitespace with
  | '-' :: r => (parseDecimal r).map (fun q => -q)
  | '+' :: r => parseDecimal r
  | r => parseDecimal r

/-- The `parseFloat(manualWeight) || 0` idiom from `WeighingConsole`:
NaN (here `none`) is replaced by 0; a parsed 0 is also 0, so the two
falsy cases agree with `Option` defaulting. -/
def orZero (x : Option ℚ) : ℚ :=
  match x with
  | none => 0
  | some v => v

/-- Weight recorded at confirm time, from `processInbound`/`processOutbound`:
`useManualWeight ? parseFloat(manualWeight) || 0 : currentWeight`. This is
the exact-value projection used by the ticket model; `recordedManualWeight`
below is its IEEE-overflow-aware counterpart for the manual path. -/
def resolvedWeight (useManual : Bool) (manualWeight : String) (currentWeight : ℚ) : ℚ :=
  if useManual then orZero (jsParseFloat manualWeight.data) else currentWeight

/-- JavaScript number value: NaN, a signed infinity, or a finite value
(carried exactly; rounding of in-range values is not modelled). -/
inductive JsNumber where
  | nan
  | infinite (neg : Bool)
  | finite (q : ℚ)
deriving DecidableEq, Repr

/-- Whether a JS number is finite (neither NaN nor an infinity). -/
def JsNumber.isFinite : JsNumber → Bool
  | finite _ => true
  | _ => false

/-- IEEE 754 binary64 overflow threshold: an exact value whose magnitude
reaches it rounds to infinity under round-to-nearest-even (the largest
finite double is 2 ^ 1024 - 2 ^ 971). -/
def dblOverflow : ℚ :=
  2 ^ 1024 - 2 ^ 970

/-- The binary64 double obtained from the exact value of a parsed literal:
values at or beyond the overflow threshold become the matching infinity,
everything else stays finite. -/
def jsNumberOfRat (q : ℚ) : JsNumber :=
  if q ≤ -dblOverflow then JsNumber.infinite true
  else if dblOverflow ≤ q then JsNumber.infinite false
  else JsNumber.finite q

/-- The JS number returned by `parseFloat` on the manual-entry string:
NaN when no literal parses, otherwise the binary64 value of the literal. -/
def jsParseFloatNumber (s : List Char) : JsNumber :=
  match jsParseFloat s with
  | none => JsNumber.nan
  | some q => jsNumberOfRat q

/-- JS `x || 0` on a number: NaN and 0 are falsy and give 0; every other
value, the infinities included, is truthy and passes through unchanged. -/
def jsOrZero : JsNumber → JsNumber
  | JsNumber.nan => JsNumber.finite 0
  | JsNumber.infinite b => JsNumber.infinite b
  | JsNumber.finite v => JsNumber.finite v

/-- The JS number the console records as the manual weight on confirm
(`parseFloat(manualWeight) || 0` in `processInbound`/`processOutbound`,
seen at the binary64 level rather than through the exact projection). -/
def recordedManualWeight (s : String) : JsNumber :=
  jsOrZero (jsParseFloatNumber s.data)

/-- Inbound confirm from `WeighingConsole.processInbound`: builds a fresh
OPEN ticket; the plate falls back to "UNKNOWN" when the detected plate is
the empty string, the image to "" when the screenshot failed. -/
def processInbound (detectedPlate material : String) (useManual : Bool)
    (manualWeight : String) (currentWeight : ℚ) (id : String) (now : ℕ)
    (imageSrc : Option String) : Ticket :=
  { id := id
    licensePlate := if detectedPlate = "" then "UNKNOWN" else detectedPlate
    companyName := none
    materialType := material
    inboundWeight := resolvedWeight useManual manualWeight currentWeight
    inboundTime := now
    inboundImage := imageSrc.getD ""
    outboundWeight := none
    outboundTime := none
    outboundImage := none
    netWeight := none
    ratePerKg := none
    totalCost := none
    status := TicketStatus.OPEN }

/-- Outbound confirm from `WeighingConsole.processOutbound`: reads the
current weight, computes `net = |inbound - out|`, applies the hardcoded
rate 0.25 per kg, and closes the matched ticket with all outbound and
financial fields populated. -/
def processOutbound (matched : Ticket) (useManual : Bool) (manualWeight : String)
    (currentWeight : ℚ) (now : ℕ) (imageSrc : Option String) : Ticket :=
  let outWeight := resolvedWeight useManual manualWeight currentWeight
  let net := |matched.inboundWeight - outWeight|
  let rate : ℚ := 0.25
  let cost := net * rate
  { matched with
    outboundWeight := some outWeight
    outboundTime := some now
    outboundImage := some (imageSrc.getD "")
    netWeight := some net
    ratePerKg := some rate
    totalCost := some cost
    status := TicketStatus.CLOSED }

/-- OPEN ticket used as a concrete matched record in examples:
plate "ABC123", inbound weight 20000. -/
def sampleOpenTicket : Ticket :=
  { id := "t-1"
    licensePlate := "ABC123"
    companyName := none
    materialType := "Mixed Metal"
    inboundWeight := 20000
    inboundTime := 1
    inboundImage := ""
    outboundWeight := none
    outboundTime := none
    outboundImage := none
    netWeight := none
    ratePerKg := none
    totalCost := none
    status := TicketStatus.OPEN }

/-- Claim C1: on outbound confirm the closed ticket's net weight is the
absolute difference of the inbound weight and the weight read at confirm,
hence non-negative, and its total cost is that net weight times the fixed
rate 0.25; concretely, inbound 20000 against outbound 15000 yields net
weight 5000 and total cost 1250. -/
theorem processOutbound_net_cost (matched : Ticket) (useManual : Bool)
    (manualWeight : String) (currentWeight : ℚ) (now : ℕ) (imageSrc : Option String) :
    (∃ w net,
      (processOutbound matched useManual manualWeight currentWeight now imageSrc).outboundWeight = some w ∧
      (processOutbound matched useManual manualWeight currentWeight now imageSrc).netWeight = some net ∧
      net = |matched.inboundWeight - w| ∧ 0 ≤ net ∧
      (processOutbound matched useManual manualWeight currentWeight now imageSrc).totalCost =
        some (net * (0.25 : ℚ))) ∧
    (processOutbound sampleOpenTicket false "" 15000 7 (some "img")).netWeight = some 5000 ∧
    (processOutbound sampleOpenTicket false "" 15000 7 (some "img")).totalCost = some 1250 := by
  refine ⟨⟨resolvedWeight useManual manualWeight currentWeight,
    |matched.inboundWeight - resolvedWeight useManual manualWeight currentWeight|,
    ?_, ?_, rfl, abs_nonneg _, ?_⟩, ?_, ?_⟩
  · simp [processOutbound]
  · simp [processOutbound]
  · simp [processOutbound]
  · show some |(20000 : ℚ) - resolvedWeight false "" 15000| = some 5000
    norm_num [resolvedWeight]
  · show some (|(20000 : ℚ) - resolvedWeight false "" 15000| * (0.25 : ℚ)) = some 1250
    norm_num [resolvedWeight]

/-- Per-ticket form of the spec invariant: each outbound field and each
financial field is present exactly when the status is CLOSED. -/
def ticketInvariant (t : Ticket) : Prop :=
  (t.outboundWeight.isSome ↔ t.status = TicketStatus.CLOSED) ∧
  (t.outboundTime.isSome ↔ t.status = TicketStatus.CLOSED) ∧
  (t.outboundImage.isSome ↔ t.status = TicketStatus.CLOSED) ∧
  (t.netWeight.isSome ↔ t.status = TicketStatus.CLOSED) ∧
  (t.ratePerKg.isSome ↔ t.status = TicketStatus.CLOSED) ∧
  (t.totalCost.isSome ↔ t.status = TicketStatus.CLOSED)

/-- Ledgers reachable through the console's only two write paths: an
inbound confirm saving a fresh OPEN ticket, and an outbound confirm saving
the closure of a ticket found open by plate. -/
inductive ReachableLedger : List Ticket → Prop where
  | nil : ReachableLedger []
  | inbound (l : List Ticket) (plate material : String) (um : Bool) (mw : String)
      (cw : ℚ) (id : String) (now : ℕ) (img : Option String) :
      ReachableLedger l →
      ReachableLedger (saveTicket l (processInbound plate material um mw cw id now img))
  | outbound (l : List Ticket) (plate : String) (m : Ticket) (um : Bool) (mw : String)
      (cw : ℚ) (now : ℕ) (img : Option String) :
      ReachableLedger l → findOpenTicketByPlate l plate = some m →
      ReachableLedger (saveTicket l (processOutbound m um mw cw now img))

/-- Claim C8: inbound confirm creates OPEN tickets with no outbound or
financial fields, outbound confirm populates all of them together with
status CLOSED, and consequently every ticket in any ledger ever written
through these paths has the outbound and financial fields present if and
only if it is CLOSED. -/
theorem ledger_fields_iff_closed :
    (∀ plate material um mw cw id now img,
      (processInbound plate material um mw cw id now img).status = TicketStatus.OPEN ∧
      (processInbound plate material um mw cw id now img).outboundWeight = none ∧
      (processInbound plate material um mw cw id now img).outboundTime = none ∧
      (processInbound plate material um mw cw id now img).outboundImage = none ∧
      (processInbound plate material um mw cw id now img).netWeight = none ∧
      (processInbound plate material um mw cw id now img).ratePerKg = none ∧
      (processInbound plate material um mw cw id now img).totalCost = none) ∧
    (∀ m um mw cw now img,
      (processOutbound m um mw cw now img).status = TicketStatus.CLOSED ∧
      (processOutbound m um mw cw now img).outboundWeight.isSome = true ∧
      (processOutbound m um mw cw now img).outboundTime.isSome = true ∧
      (processOutbound m um mw cw now img).outboundImage.isSome = true ∧
      (processOutbound m um mw cw now img).netWeight.isSome = true ∧
      (processOutbound m um mw cw now img).ratePerKg.isSome = true ∧
      (processOutbound m um mw cw now img).totalCost.isSome = true) ∧
    (∀ l, ReachableLedger l → ∀ t ∈ l, ticketInvariant t) := by
  refine ⟨?_, ?_, ?_⟩
  · intro plate material um mw cw id now img
    simp [processInbound]
  · intro m um mw cw now img
    simp [processOutbound]
  · intro l hre
    induction hre with
    | nil => intro t ht; simp at ht
    | inbound l plate material um mw cw id now img _ ih =>
        intro t ht
        rcases mem_saveTicket ht with hmem | rfl
        · exact ih t hmem
        · simp [ticketInvariant, processInbound]
    | outbound l plate m um mw cw now img _ _ ih =>
        intro t ht
        rcases mem_saveTicket ht with hmem | rfl
        · exact ih t hmem
        · simp [ticketInvariant, processOutbound]

/-- Witness for C8: the ledger after one concrete inbound write is
reachable and its single ticket satisfies the invariant. -/
theorem ledger_fields_iff_closed_witness :
    ticketInvariant (processInbound "ABC123" "Mixed Metal" false "" 20000 "id1" 5 none) := by
  have hre : ReachableLedger
      (saveTicket [] (processInbound "ABC123" "Mixed Metal" false "" 20000 "id1" 5 none)) :=
    ReachableLedger.inbound [] "ABC123" "Mixed Metal" false "" 20000 "id1" 5 none
      ReachableLedger.nil
  refine ledger_fields_iff_closed.2.2 _ hre _ ?_
  simp [saveTicket, findIndexJs]

/-- The manual entry "1e999" is inside the number-input grammar and its
exact literal value is 10 ^ 999. -/
theorem jsParseFloat_1e999 : jsParseFloat "1e999".data = some ((10 : ℚ) ^ 999) := by
  have h0 : jsParseFloat "1e999".data =
      some (applyExpDigits (decValue ['1'] []) false ['9', '9', '9']) := rfl
  have hds : List.takeWhile Char.isDigit ['9', '9', '9'] = ['9', '9', '9'] := by decide
  have hn : digitsToNat ['9', '9', '9'] = 999 := by decide
  have hv : decValue ['1'] [] = 1 := by
    have h1 : digitsToNat ['1'] = 1 := by decide
    have h2 : digitsToNat [] = 0 := by decide
    norm_num [decValue, h1, h2]
  rw [h0]
  simp [applyExpDigits, hds, hn, hv]

/-- Its binary64 value overflows to positive Infinity. -/
theorem jsNumberOfRat_1e999 : jsNumberOfRat ((10 : ℚ) ^ 999) = JsNumber.infinite false := by
  have h1 : ¬ ((10 : ℚ) ^ 999 ≤ -dblOverflow) := by
    unfold dblOverflow
    norm_num
  have h2 : dblOverflow ≤ (10 : ℚ) ^ 999 := by
    unfold dblOverflow
    norm_num
  simp [jsNumberOfRat, h1, h2]

/-- Counterexample to claim C10 as stated: persisted weights are not
always finite. The manual entry "1e999" is a valid number-input string,
`parseFloat` overflows it to Infinity, Infinity survives the `|| 0` guard
because it is truthy, and so the weight the console records on confirm is
positive Infinity, which is not a finite number. -/
theorem recordedManualWeight_overflow :
    recordedManualWeight "1e999" = JsNumber.infinite false ∧
    (recordedManualWeight "1e999").isFinite = false := by
  have h : recordedManualWeight "1e999" = JsNumber.infinite false := by
    unfold recordedManualWeight jsParseFloatNumber
    rw [jsParseFloat_1e999]
    show jsOrZero (jsNumberOfRat ((10 : ℚ) ^ 999)) = JsNumber.infinite false
    rw [jsNumberOfRat_1e999]
    simp [jsOrZero]
  exact ⟨h, by rw [h]; rfl⟩

/-- Claim C10 amended: with the manual-entry override active, an empty or
non-parsing manual weight string records a weight of exactly 0 for both
the inbound and the outbound confirm, and the recorded manual weight is
never NaN for any entry (the `|| 0` guard replaces a NaN parse with 0);
persisted weights are however not always finite, since a grammar-valid
overflow literal such as "1e999" parses to Infinity, passes the truthy
`|| 0` guard, and is recorded. -/
theorem manual_weight_never_nan :
    jsParseFloat "".data = none ∧
    (∀ (s : String), jsParseFloat s.data = none →
      recordedManualWeight s = JsNumber.finite 0 ∧
      ∀ plate material cw id now img m,
        (processInbound plate material true s cw id now img).inboundWeight = 0 ∧
        (processOutbound m true s cw now img).outboundWeight = some 0) ∧
    (∀ (s : String), recordedManualWeight s ≠ JsNumber.nan) ∧
    recordedManualWeight "1e999" = JsNumber.infinite false := by
  refine ⟨by decide, ?_, ?_, ?_⟩
  · intro s hs
    refine ⟨by simp [recordedManualWeight, jsParseFloatNumber, hs, jsOrZero], ?_⟩
    intro plate material cw id now img m
    constructor
    · simp [processInbound, resolvedWeight, hs, orZero]
    · simp [processOutbound, resolvedWeight, hs, orZero]
  · intro s
    unfold recordedManualWeight
    cases h : jsParseFloatNumber s.data with
    | nan => simp [jsOrZero]
    | infinite b => simp [jsOrZero]
    | finite v => simp [jsOrZero]
  · unfold recordedManualWeight jsParseFloatNumber
    rw [jsParseFloat_1e999]
    show jsOrZero (jsNumberOfRat ((10 : ℚ) ^ 999)) = JsNumber.infinite false
    rw [jsNumberOfRat_1e999]
    simp [jsOrZero]

/-- Witness for the amended C10 at the concrete non-numeric manual entries
"" and "abc": both record the JS number 0 and a zero inbound weight. -/
theorem manual_weight_never_nan_witness :
    recordedManualWeight "abc" = JsNumber.finite 0 ∧
    (processInbound "ABC123" "Plastic" true "" 15000 "id2" 9 none).inboundWeight = 0 ∧
    (processInbound "ABC123" "Plastic" true "abc" 15000 "id2" 9 none).inboundWeight = 0 := by
  refine ⟨(manual_weight_never_nan.2.1 "abc" (by decide)).1, ?_, ?_⟩
  · exact ((manual_weight_never_nan.2.1 "" (by decide)).2
      "ABC123" "Plastic" 15000 "id2" 9 none sampleOpenTicket).1
  · exact ((manual_weight_never_nan.2.1 "abc" (by decide)).2
      "ABC123" "Plastic" 15000 "id2" 9 none sampleOpenTicket).1

/-! Capture state machine of `WeighingConsole.handleCapture`. The webcam
component is always mounted in the rendered console; a failing screenshot
is modelled by `imageSrc = none`, and the external identifier's answer
(which never throws) by the `recognizedPlate` argument. -/

/-- Console transaction mode (`'IDLE' | 'INBOUND' | 'OUTBOUND'`). -/
inductive Mode where
  | IDLE
  | INBOUND
  | OUTBOUND
deriving DecidableEq, Repr

/-- Error outcomes of a capture request: the stability guard
(`NotStableError` of the spec) and a failed camera screenshot. -/
inductive CaptureError where
  | notStable
  | cameraFailed
deriving DecidableEq, Repr

/-- React state of `WeighingConsole` relevant to a capture request,
with the stored ticket collection made explicit. -/
structure ConsoleState where
  isStable : Bool
  useManualWeight : Bool
  processing : Bool
  mode : Mode
  matchedTicket : Option Ticket
  detectedPlate : String
  tickets : List Ticket
deriving DecidableEq, Repr

/-- Capture request from `WeighingConsole.handleCapture`: rejected up front
when the scale is not stable and manual entry is off; otherwise it clears
the draft state, takes the screenshot, resolves the plate, and routes to
OUTBOUND when an open ticket matches the plate, else to INBOUND. -/
def handleCapture (s : ConsoleState) (imageSrc : Option String)
    (recognizedPlate : String) : ConsoleState × Option CaptureError :=
  if s.isStable = false ∧ s.useManualWeight = false then
    (s, some CaptureError.notStable)
  else
    let s1 : ConsoleState :=
      { s with
        processing := true
        mode := Mode.IDLE
        matchedTicket := none
        detectedPlate := "" }
    match imageSrc with
    | none => ({ s1 with processing := false }, some CaptureError.cameraFailed)
    | some _ =>
        let s2 : ConsoleState := { s1 with detectedPlate := recognizedPlate }
        match findOpenTicketByPlate s2.tickets recognizedPlate with
        | some t =>
            ({ s2 with
               mode := Mode.OUTBOUND
               matchedTicket := some t
               processing := false }, none)
        | none =>
            ({ s2 with
               mode := Mode.INBOUND
               processing := false }, none)

/-- Claim C4: a capture requested while the reading is in MOTION with the
manual override off is rejected with the not-stable error and the console
state is returned completely unchanged — no mode transition, no processing,
no draft, and an unchanged ledger; conversely a capture passes the
stability guard only when the state is STABLE or the override is active,
and no capture path ever modifies the stored tickets. -/
theorem handleCapture_not_stable (s : ConsoleState) (imageSrc : Option String)
    (recognizedPlate : String) :
    (s.isStable = false ∧ s.useManualWeight = false →
      handleCapture s imageSrc recognizedPlate = (s, some CaptureError.notStable)) ∧
    ((handleCapture s imageSrc recognizedPlate).2 ≠ some CaptureError.notStable →
      s.isStable = true ∨ s.useManualWeight = true) ∧
    (handleCapture s imageSrc recognizedPlate).1.tickets = s.tickets := by
  refine ⟨?_, ?_, ?_⟩
  · intro h
    simp [handleCapture, h]
  · intro h
    by_contra hcon
    push_neg at hcon
    have h1 : s.isStable = false := by
      cases hs : s.isStable with
      | false => rfl
      | true => exact absurd hs hcon.1
    have h2 : s.useManualWeight = false := by
      cases hm : s.useManualWeight with
      | false => rfl
      | true => exact absurd hm hcon.2
    exact h (by simp [handleCapture, h1, h2])
  · unfold handleCapture
    by_cases h : s.isStable = false ∧ s.useManualWeight = false
    · simp [h]
    · simp only [if_neg h]
      cases imageSrc with
      | none => rfl
      | some img =>
          cases hfind : findOpenTicketByPlate s.tickets recognizedPlate with
          | some t => simp [hfind]
          | none => simp [hfind]

/-- Witness for C4: a concrete unstable, non-manual console state is left
untouched and the capture is rejected as not stable. -/
theorem handleCapture_not_stable_witness :
    handleCapture
      { isStable := false, useManualWeight := false, processing := false,
        mode := Mode.IDLE, matchedTicket := none, detectedPlate := "",
        tickets := [] } (some "img") "ABC123" =
      ({ isStable := false, useManualWeight := false, processing := false,
         mode := Mode.IDLE, matchedTicket := none, detectedPlate := "",
         tickets := [] }, some CaptureError.notStable) :=
  (handleCapture_not_stable
    { isStable := false, useManualWeight := false, processing := false,
      mode := Mode.IDLE, matchedTicket := none, detectedPlate := "",
      tickets := [] } (some "img") "ABC123").1 ⟨rfl, rfl⟩

/-! Serial connection of `ScaleService.connect` in `scaleService.ts`. -/

/-- What the environment does with the device request: the user or system
declines (the promise rejects), the request resolves to a nullish port, or
a port is granted whose `open` either succeeds or throws. -/
inductive PortRequest where
  | declined
  | nullPort
  | granted (openOk : Bool)
deriving DecidableEq, Repr

/-- Platform environment seen by `connect`: whether the Web Serial API
exists and how the device request plays out. -/
structure SerialEnv where
  supported : Bool
  request : PortRequest
deriving DecidableEq, Repr

/-- Result of a `connect()` call: an exception propagated to the caller,
or a normal return of the boolean connection flag. -/
inductive ConnectOutcome where
  | threw (msg : String)
  | returned (b : Bool)
deriving DecidableEq, Repr

/-- Whether a connect outcome is a propagated exception. -/
def ConnectOutcome.isThrown : ConnectOutcome → Bool
  | threw _ => true
  | returned _ => false

/-- Shallow embedding of `ScaleService.connect`: an unsupported platform
throws; inside the try block, a rejected device request or a failing
`open` are caught and turn into `return false`; a nullish port also
returns false; only a granted port that opens yields `return true`. -/
def connect (env : SerialEnv) : ConnectOutcome :=
  if env.supported = false then
    ConnectOutcome.threw "Web Serial API not supported in this browser."
  else
    match env.request with
    | PortRequest.declined => ConnectOutcome.returned false
    | PortRequest.nullPort => ConnectOutcome.returned false
    | PortRequest.granted openOk =>
        if openOk then ConnectOutcome.returned true
        else ConnectOutcome.returned false

/-- Counterexample to claim C5 as stated: when the user declines the device
and when opening the granted device fails, `connect` raises no error at all
— both failure modes are caught internally and produce the identical plain
return value `false`, so no distinct `ConnectionError` / `TransportError`
reaches the caller. -/
theorem connect_no_typed_errors :
    (connect { supported := true, request := PortRequest.declined }).isThrown = false ∧
    (connect { supported := true, request := PortRequest.granted false }).isThrown = false ∧
    connect { supported := true, request := PortRequest.declined } =
      connect { supported := true, request := PortRequest.granted false } := by
  decide

/-- Claim C5 amended: `connect` throws only when the platform lacks the
Web Serial capability; a declined or nullish device request and a failing
`open` of the granted device are caught and reported as the return value
`false`; it returns `true` only when a device is granted and opens, so it
never reports success in any failure case. -/
theorem connect_failure_modes (env : SerialEnv) :
    (env.supported = false →
      connect env = ConnectOutcome.threw "Web Serial API not supported in this browser.") ∧
    (env.supported = true → env.request = PortRequest.declined →
      connect env = ConnectOutcome.returned false) ∧
    (env.supported = true → env.request = PortRequest.granted false →
      connect env = ConnectOutcome.returned false) ∧
    (connect env = ConnectOutcome.returned true →
      env.supported = true ∧ env.request = PortRequest.granted true) := by
  refine ⟨?_, ?_, ?_, ?_⟩
  · intro h; simp [connect, h]
  · intro hs hr; simp [connect, hs, hr]
  · intro hs hr; simp [connect, hs, hr]
  · intro h
    cases hs : env.supported with
    | false => simp [connect, hs] at h
    | true =>
        refine ⟨rfl, ?_⟩
        cases hr : env.request with
        | declined => simp [connect, hs, hr] at h
        | nullPort => simp [connect, hs, hr] at h
        | granted openOk =>
            cases openOk with
            | false => simp [connect, hs, hr] at h
            | true => rfl

/-- Witness for the amended C5 at a concrete environment: no capability
means the call throws. -/
theorem connect_failure_modes_witness :
    connect { supported := false, request := PortRequest.declined } =
      ConnectOutcome.threw "Web Serial API not supported in this browser." :=
  (connect_failure_modes { supported := false, request := PortRequest.declined }).1 rfl

/-! Stability detector of the `WeighingConsole` effect on
`[currentWeight, useManualWeight]`. React runs the previous effect's
cleanup (clearing the pending timeout) before the effect body, so each
dependency change first cancels any pending quiet-period timer. -/

/-- Stability state: the STABLE flag and the deadline of the pending
quiet-period timeout, if one is armed. -/
structure StabState where
  isStable : Bool
  timerDeadline : Option ℕ
deriving DecidableEq, Repr

/-- Effect cleanup: `clearTimeout` on the pending stability timer. -/
def stabilityCleanup (s : StabState) : StabState :=
  { s with timerDeadline := none }

/-- Effect body at time `now`: under manual entry it only forces STABLE and
returns; otherwise it resets to MOTION and arms a fresh 800 ms timer. -/
def stabilityEffectBody (s : StabState) (now : ℕ) (useManual : Bool) : StabState :=
  if useManual then { s with isStable := true }
  else { isStable := false, timerDeadline := some (now + 800) }

/-- One dependency change (a new reading value or a manual-mode toggle) at
time `now`: previous cleanup, then the effect body. -/
def stabilityOnChange (s : StabState) (now : ℕ) (useManual : Bool) : StabState :=
  stabilityEffectBody (stabilityCleanup s) now useManual

/-- Timer delivery: at time `now`, a pending timeout whose deadline has
passed fires and sets STABLE; otherwise nothing happens. -/
def stabilityFire (s : StabState) (now : ℕ) : StabState :=
  match s.timerDeadline with
  | some d => if d ≤ now then { isStable := true, timerDeadline := none } else s
  | none => s

/-- Claim C9: a reading change at time `t` (manual off) puts the detector
in MOTION and re-arms the quiet-period timer for `t + 800`, cancelling
whatever timer was pending; the timer firing at or after `t + 800` with no
further change yields STABLE, while before `t + 800` the state is still
MOTION; and any change processed while manual entry is active leaves the
detector STABLE with no timer running. -/
theorem stability_detector_spec (s : StabState) (t now : ℕ) :
    stabilityOnChange s t false = { isStable := false, timerDeadline := some (t + 800) } ∧
    (t + 800 ≤ now →
      stabilityFire (stabilityOnChange s t false) now =
        { isStable := true, timerDeadline := none }) ∧
    (now < t + 800 →
      stabilityFire (stabilityOnChange s t false) now =
        { isStable := false, timerDeadline := some (t + 800) }) ∧
    stabilityOnChange s t true = { isStable := true, timerDeadline := none } ∧
    stabilityFire (stabilityOnChange s t true) now =
      { isStable := true, timerDeadline := none } := by
  refine ⟨rfl, ?_, ?_, ?_, ?_⟩
  · intro h
    simp [stabilityOnChange, stabilityCleanup, stabilityEffectBody, stabilityFire, h]
  · intro h
    simp [stabilityOnChange, stabilityCleanup, stabilityEffectBody, stabilityFire,
      Nat.not_le.mpr h]
  · cases s with
    | mk st td => rfl
  · cases s with
    | mk st td => rfl

/-- Witness for C9 at concrete times: a change at time 0 re-arms the timer,
which has fired by time 800; at time 799 the state is still MOTION. -/
theorem stability_detector_spec_witness :
    stabilityFire (stabilityOnChange { isStable := true, timerDeadline := some 5 } 0 false) 800 =
      { isStable := true, timerDeadline := none } ∧
    stabilityFire (stabilityOnChange { isStable := true, timerDeadline := some 5 } 0 false) 799 =
      { isStable := false, timerDeadline := some 800 } := by
  constructor
  · exact (stability_detector_spec { isStable := true, timerDeadline := some 5 } 0 800).2.1
      (by decide)
  · exact (stability_detector_spec { isStable := true, timerDeadline := some 5 } 0 799).2.2.1
      (by decide)

/-! Stream framer of `ScaleService` (`processData` / `parseWeight`):
the carry-over buffer, splitting on runs of line terminators, and the
first-numeric-substring parse of each complete line. Character chunks are
modelled as `List Char`. -/

/-- Line terminator characters matched by the `[\r\n]` class. -/
def isTerm (c : Char) : Bool :=
  c = '\r' || c = '\n'

/-- JavaScript `s.split(/[\r\n]+/)`: a maximal run of terminators is one
separator; a terminator followed by another terminator extends the run,
a terminator followed by anything else (or the end) closes a segment. -/
def splitRuns : List Char → List (List Char)
  | [] => [[]]
  | c :: cs =>
      if isTerm c then
        match cs with
        | [] => [[], []]
        | d :: _ => if isTerm d then splitRuns cs else [] :: splitRuns cs
      else (splitRuns cs).modifyHead (fun l => c :: l)

/-- First numeric substring of a line per the regex `(\d+(\.\d+)?)`:
scan to the first digit, take the maximal digit run, then an optional
fraction introduced by a point with at least one digit. Returns the
integer and fraction digit lists. -/
def findFirstNumeric : List Char → Option (List Char × List Char)
  | [] => none
  | c :: rest =>
      if c.isDigit then
        let ip := c :: rest.takeWhile Char.isDigit
        match rest.dropWhile Char.isDigit with
        | '.' :: r2 =>
            let fp := r2.takeWhile Char.isDigit
            if fp.isEmpty then some (ip, []) else some (ip, fp)
        | _ => some (ip, [])
      else findFirstNumeric rest

/-- `ScaleService.parseWeight`: the first numeric substring of the raw
line, if any, read with `parseFloat` (exact here, so never NaN and the
`isNaN` guard of the source never fires). -/
def parseWeight (rawString : List Char) : Option ℚ :=
  match findFirstNumeric rawString with
  | some (ip, fp) => some (decValue ip fp)
  | none => none

/-- Emission for one complete line in `ScaleService.processData`: lines
whose trim is empty are skipped, the rest go through `parseWeight`. -/
def lineEmit (line : List Char) : Option ℚ :=
  if line.any (fun c => !(jsWhitespace c)) then parseWeight line else none

/-- `ScaleService.processData`: append the chunk to the carry-over buffer,
split on terminator runs, keep the final (possibly incomplete) segment as
the new buffer, and emit a reading for each remaining line that parses.
Returns the new buffer and the readings emitted for this chunk. -/
def processData (buffer chunk : List Char) : List Char × List ℚ :=
  let lines := splitRuns (buffer ++ chunk)
  ((lines.getLast?).getD [], lines.dropLast.filterMap lineEmit)

/-- Reference single-character feed: a terminator flushes the buffered
line (emitting if it parses), any other character is buffered. -/
def feedChar (st : List Char × List ℚ) (c : Char) : List Char × List ℚ :=
  if isTerm c then ([], st.2 ++ (lineEmit st.1).toList)
  else (st.1 ++ [c], st.2)

/-- Feeding a character sequence one character at a time. -/
def feedChars (st : List Char × List ℚ) (cs : List Char) : List Char × List ℚ :=
  cs.foldl feedChar st

/-- Running the framer over a whole chunk sequence from a fresh service:
each chunk goes through `processData` against the carried buffer and the
emitted readings are concatenated in order. -/
def feedAll (chunks : List (List Char)) : List Char × List ℚ :=
  chunks.foldl
    (fun st chunk =>
      let r := processData st.1 chunk
      (r.1, st.2 ++ r.2))
    ([], [])

/-- Buffers reachable by the framer contain no terminator. -/
@[reducible] def TermFree (l : List Char) : Prop :=
  ∀ c ∈ l, isTerm c = false

/-! Lemmas leading to chunk-boundary independence of the framer. -/

theorem splitRuns_cons_nonterm {c : Char} (h : isTerm c = false) (cs : List Char) :
    splitRuns (c :: cs) = (splitRuns cs).modifyHead (fun l => c :: l) := by
  simp [splitRuns, h]

theorem splitRuns_ne_nil (s : List Char) : splitRuns s ≠ [] := by
  induction s with
  | nil => simp [splitRuns]
  | cons c cs ih =>
      by_cases hc : isTerm c = true
      · cases cs with
        | nil => simp [splitRuns, hc]
        | cons d rest =>
            by_cases hd : isTerm d = true
            · simpa [splitRuns, hc, hd] using ih
            · simp [splitRuns, hc, hd]
      · rw [splitRuns_cons_nonterm (by simpa using hc)]
        cases hsp : splitRuns cs with
        | nil => exact absurd hsp ih
        | cons a l => simp

theorem splitRuns_cons_term :
    ∀ (cs : List Char) {c : Char}, isTerm c = true →
      splitRuns (c :: cs) = [] :: splitRuns (cs.dropWhile isTerm) := by
  intro cs
  induction cs with
  | nil =>
      intro c h
      simp [splitRuns, h, List.dropWhile]
  | cons d rest ih =>
      intro c h
      by_cases hd : isTerm d = true
      · have step : splitRuns (c :: d :: rest) = splitRuns (d :: rest) := by
          simp [splitRuns, h, hd]
        rw [step, ih hd]
        simp [List.dropWhile_cons, hd]
      · simp [splitRuns, h, hd, List.dropWhile_cons]

theorem modifyHead_modifyHead {α : Type} (f g : α → α) (l : List α) :
    (l.modifyHead g).modifyHead f = l.modifyHead (fun x => f (g x)) := by
  cases l with
  | nil => rfl
  | cons a t => rfl

theorem splitRuns_termfree_prepend :
    ∀ {x : List Char}, TermFree x → ∀ (y : List Char),
      splitRuns (x ++ y) = (splitRuns y).modifyHead (fun l => x ++ l) := by
  intro x
  induction x with
  | nil =>
      intro _ y
      cases hsp : splitRuns y with
      | nil => exact absurd hsp (splitRuns_ne_nil y)
      | cons a t =>
          rw [List.nil_append, hsp]
          simp [List.modifyHead]
  | cons a x ih =>
      intro hfree y
      have ha : isTerm a = false := hfree a (List.mem_cons_self a x)
      have hx : TermFree x := fun c hc => hfree c (List.mem_cons_of_mem a hc)
      rw [List.cons_append, splitRuns_cons_nonterm ha, ih hx y,
        modifyHead_modifyHead]
      rfl

theorem splitRuns_termfree {x : List Char} (h : TermFree x) :
    splitRuns x = [x] := by
  have := splitRuns_termfree_prepend h []
  simpa [splitRuns] using this

theorem lineEmit_nil : lineEmit [] = none := by
  simp [lineEmit]

theorem feedChars_nil (st : List Char × List ℚ) : feedChars st [] = st := rfl

theorem feedChars_cons (st : List Char × List ℚ) (c : Char) (cs : List Char) :
    feedChars st (c :: cs) = feedChars (feedChar st c) cs := rfl

theorem feedChars_append (st : List Char × List ℚ) (a b : List Char) :
    feedChars st (a ++ b) = feedChars (feedChars st a) b := by
  simp [feedChars, List.foldl_append]

theorem feedChars_accumulate :
    ∀ (cs : List Char) (b : List Char) (o : List ℚ),
      feedChars (b, o) cs =
        ((feedChars (b, []) cs).1, o ++ (feedChars (b, []) cs).2) := by
  intro cs
  induction cs with
  | nil =>
      intro b o
      simp [feedChars]
  | cons c cs ih =>
      intro b o
      rw [feedChars_cons, feedChars_cons]
      by_cases hc : isTerm c = true
      · have h1 : feedChar (b, o) c = ([], o ++ (lineEmit b).toList) := by
          simp [feedChar, hc]
        have h2 : feedChar (b, ([] : List ℚ)) c = ([], (lineEmit b).toList) := by
          simp [feedChar, hc]
        rw [h1, h2, ih _ (o ++ (lineEmit b).toList), ih _ ((lineEmit b).toList)]
        simp
      · have h1 : feedChar (b, o) c = (b ++ [c], o) := by
          simp [feedChar, hc]
        have h2 : feedChar (b, ([] : List ℚ)) c = (b ++ [c], []) := by
          simp [feedChar, hc]
        rw [h1, h2, ih _ o]

theorem feedChars_skip_terms :
    ∀ (cs : List Char) (o : List ℚ),
      feedChars ([], o) cs = feedChars ([], o) (cs.dropWhile isTerm) := by
  intro cs
  induction cs with
  | nil => intro o; rfl
  | cons c cs ih =>
      intro o
      by_cases hc : isTerm c = true
      · have h1 : feedChar (([] : List Char), o) c = ([], o) := by
          simp [feedChar, hc, lineEmit_nil]
        rw [feedChars_cons, h1, ih o, List.dropWhile_cons, if_pos hc]
      · rw [List.dropWhile_cons, if_neg hc]

theorem feedChars_fst_termfree :
    ∀ (cs : List Char) (b : List Char) (o : List ℚ), TermFree b →
      TermFree (feedChars (b, o) cs).1 := by
  intro cs
  induction cs with
  | nil => intro b o hb; exact hb
  | cons c cs ih =>
      intro b o hb
      rw [feedChars_cons]
      by_cases hc : isTerm c = true
      · have h1 : feedChar (b, o) c = ([], o ++ (lineEmit b).toList) := by
          simp [feedChar, hc]
        rw [h1]
        exact ih _ _ (fun x hx => by simp at hx)
      · have h1 : feedChar (b, o) c = (b ++ [c], o) := by
          simp [feedChar, hc]
        rw [h1]
        refine ih _ _ ?_
        intro x hx
        rcases List.mem_append.mp hx with h | h
        · exact hb x h
        · simp at h
          subst h
          simpa using hc

theorem processData_nil {buf : List Char} (h : TermFree buf) :
    processData buf [] = (buf, []) := by
  simp [processData, splitRuns_termfree h]

theorem getLast?_cons_of_ne_nil {α : Type} {l : List α} (h : l ≠ []) (a : α) :
    (a :: l).getLast? = l.getLast? := by
  cases l with
  | nil => exact absurd rfl h
  | cons b t => exact List.getLast?_cons_cons

theorem dropLast_cons_of_ne_nil' {α : Type} {l : List α} (h : l ≠ []) (a : α) :
    (a :: l).dropLast = a :: l.dropLast := by
  cases l with
  | nil => exact absurd rfl h
  | cons b t => rfl

theorem processData_eq_feedChars :
    ∀ (n : ℕ) (chunk buf : List Char), chunk.length ≤ n → TermFree buf →
      processData buf chunk = feedChars (buf, []) chunk := by
  intro n
  induction n with
  | zero =>
      intro chunk buf hlen hbuf
      have : chunk = [] := List.eq_nil_of_length_eq_zero (Nat.le_zero.mp hlen)
      subst this
      rw [processData_nil hbuf, feedChars_nil]
  | succ n ih =>
      intro chunk buf hlen hbuf
      cases chunk with
      | nil => rw [processData_nil hbuf, feedChars_nil]
      | cons c rest =>
          by_cases hc : isTerm c = true
          · -- terminator: the buffered line completes here
            set rest' := rest.dropWhile isTerm with hrest'
            have hlen' : rest'.length ≤ n := by
              have h1 : rest'.length ≤ rest.length := by
                rw [hrest']
                exact List.IsSuffix.length_le (List.dropWhile_suffix isTerm)
              have h2 : rest.length ≤ n := by
                simpa using Nat.lt_succ_iff.mp (Nat.lt_of_lt_of_le (Nat.lt_succ_of_le le_rfl) (by simpa using hlen))
              omega
            have hsplit : splitRuns (buf ++ c :: rest) = buf :: splitRuns rest' := by
              rw [splitRuns_termfree_prepend hbuf (c :: rest),
                splitRuns_cons_term rest hc]
              simp [List.modifyHead]
            have hne : splitRuns rest' ≠ [] := splitRuns_ne_nil rest'
            have hPD : processData [] rest' =
                ((splitRuns rest').getLast?.getD [],
                  (splitRuns rest').dropLast.filterMap lineEmit) := by
              simp [processData]
            have hLHS : processData buf (c :: rest) =
                ((splitRuns rest').getLast?.getD [],
                  (lineEmit buf).toList ++ (splitRuns rest').dropLast.filterMap lineEmit) := by
              simp only [processData, hsplit]
              rw [getLast?_cons_of_ne_nil hne, dropLast_cons_of_ne_nil' hne]
              cases hbe : lineEmit buf with
              | none => simp [List.filterMap_cons, hbe]
              | some w => simp [List.filterMap_cons, hbe]
            have hRHS : feedChars (buf, ([] : List ℚ)) (c :: rest) =
                ((feedChars ([], ([] : List ℚ)) rest').1,
                  (lineEmit buf).toList ++ (feedChars ([], ([] : List ℚ)) rest').2) := by
              rw [feedChars_cons]
              have hstep : feedChar (buf, ([] : List ℚ)) c = ([], (lineEmit buf).toList) := by
                simp [feedChar, hc]
              rw [hstep, feedChars_skip_terms, ← hrest',
                feedChars_accumulate rest' [] ((lineEmit buf).toList)]
            rw [hLHS, hRHS, ← ih rest' [] hlen' (fun x hx => by simp at hx), hPD]
          · -- ordinary character: it joins the buffer
            have hc' : isTerm c = false := by simpa using hc
            have hkey : processData buf (c :: rest) = processData (buf ++ [c]) rest := by
              simp only [processData]
              rw [List.append_cons]
            have hbuf' : TermFree (buf ++ [c]) := by
              intro x hx
              rcases List.mem_append.mp hx with h | h
              · exact hbuf x h
              · simp at h
                subst h
                exact hc'
            have hlen' : rest.length ≤ n := by
              simpa using Nat.succ_le_succ_iff.mp (by simpa using hlen)
            rw [hkey, ih rest (buf ++ [c]) hlen' hbuf', feedChars_cons]
            have hstep : feedChar (buf, ([] : List ℚ)) c = (buf ++ [c], []) := by
              simp [feedChar, hc']
            rw [hstep]

theorem feedAll_foldl_eq_feedChars :
    ∀ (chunks : List (List Char)) (b : List Char) (o : List ℚ), TermFree b →
      chunks.foldl
        (fun st chunk =>
          let r := processData st.1 chunk
          (r.1, st.2 ++ r.2))
        (b, o) = feedChars (b, o) chunks.flatten := by
  intro chunks
  induction chunks with
  | nil =>
      intro b o hb
      simp [feedChars]
  | cons ch chunks ih =>
      intro b o hb
      have hstep : ((processData b ch).1, o ++ (processData b ch).2) =
          feedChars (b, o) ch := by
        rw [processData_eq_feedChars ch.length ch b le_rfl hb,
          feedChars_accumulate ch b o]
      have hfree : TermFree (feedChars (b, o) ch).1 :=
        feedChars_fst_termfree ch b o hb
      calc (ch :: chunks).foldl
            (fun st chunk =>
              let r := processData st.1 chunk
              (r.1, st.2 ++ r.2))
            (b, o)
          = chunks.foldl
              (fun st chunk =>
                let r := processData st.1 chunk
                (r.1, st.2 ++ r.2))
              (feedChars (b, o) ch) := by
            rw [List.foldl_cons]
            exact congrArg
              (fun st => List.foldl
                (fun st chunk =>
                  let r := processData st.1 chunk
                  (r.1, st.2 ++ r.2))
                st chunks)
              hstep
        _ = feedChars (feedChars (b, o) ch) chunks.flatten := by
            have h2 := ih (feedChars (b, o) ch).1 (feedChars (b, o) ch).2 hfree
            simpa using h2
        _ = feedChars (b, o) (ch :: chunks).flatten := by
            rw [List.flatten_cons, feedChars_append]

theorem feedAll_eq_feedChars (chunks : List (List Char)) :
    feedAll chunks = feedChars ([], []) chunks.flatten := by
  unfold feedAll
  exact feedAll_foldl_eq_feedChars chunks [] [] (fun x hx => by simp at hx)

/-- Claim C6: the stream framer is chunk-boundary independent — for every
underlying character stream, every way of splitting it into chunks makes
`processData` (folded over the carry-over buffer from a fresh service)
emit the identical reading sequence and leave the identical buffer; in
particular appending an empty chunk is a no-op, and a reading whose digits
arrive split across a chunk boundary is reassembled. -/
theorem streamFramer_chunk_independence (chunks1 chunks2 : List (List Char))
    (h : chunks1.flatten = chunks2.flatten) :
    feedAll chunks1 = feedAll chunks2 ∧
    feedAll (chunks1 ++ [[]]) = feedAll chunks1 := by
  constructor
  · rw [feedAll_eq_feedChars, feedAll_eq_feedChars, h]
  · rw [feedAll_eq_feedChars, feedAll_eq_feedChars]
    simp

/-- Witness for C6: the line "ST,GS,+ 12400 kg" delivered in three chunks,
with the digit run and the CRLF pair both split across boundaries, equals
the single-chunk delivery. -/
theorem streamFramer_chunk_independence_witness :
    feedAll ["ST,GS,+ 12".data, "400 kg\r".data, "\n0\n".data] =
      feedAll ["ST,GS,+ 12400 kg\r\n0\n".data] :=
  (streamFramer_chunk_independence
    ["ST,GS,+ 12".data, "400 kg\r".data, "\n0\n".data]
    ["ST,GS,+ 12400 kg\r\n0\n".data] (by decide)).1

/-- Lines with no digit produce no numeric match. -/
theorem findFirstNumeric_eq_none_iff (l : List Char) :
    findFirstNumeric l = none ↔ ∀ c ∈ l, c.isDigit = false := by
  induction l with
  | nil => simp [findFirstNumeric]
  | cons c rest ih =>
      by_cases hc : c.isDigit = true
      · constructor
        · intro h
          exfalso
          revert h
          cases hdr : rest.dropWhile Char.isDigit with
          | nil => simp [findFirstNumeric, hc, hdr]
          | cons d r2 =>
              by_cases hd : d = '.'
              · subst hd
                by_cases hfp : (r2.takeWhile Char.isDigit).isEmpty
                · simp [findFirstNumeric, hc, hdr, hfp]
                · simp [findFirstNumeric, hc, hdr, hfp]
              · simp [findFirstNumeric, hc, hdr]
                intro hcontr
                cases hdr2 : (rest.dropWhile Char.isDigit) with
                | nil => rw [hdr2] at hdr; simp at hdr
                | cons dd rr =>
                    rw [hdr2] at hdr
                    injection hdr with h1 h2
                    subst h1; subst h2
                    revert hcontr
                    simp [hd]
        · intro h
          exact absurd hc (by simpa using h c (List.mem_cons_self c rest))
      · have hc' : c.isDigit = false := by simpa using hc
        simp only [findFirstNumeric, hc', Bool.false_eq_true, if_false, ih]
        constructor
        · intro h d hd
          rcases List.mem_cons.mp hd with rfl | hmem
          · exact hc'
          · exact h d hmem
        · intro h d hd
          exact h d (List.mem_cons_of_mem c hd)

theorem parseWeight_isSome (l : List Char) :
    (parseWeight l).isSome = l.any Char.isDigit := by
  cases hf : findFirstNumeric l with
  | none =>
      have := (findFirstNumeric_eq_none_iff l).mp hf
      have : l.any Char.isDigit = false := by
        rw [List.any_eq_false]
        intro c hc
        simp [this c hc]
      simp [parseWeight, hf, this]
  | some p =>
      have hne : ¬ ∀ c ∈ l, c.isDigit = false := by
        intro hall
        rw [(findFirstNumeric_eq_none_iff l).mpr hall] at hf
        exact Option.noConfusion hf
      have : l.any Char.isDigit = true := by
        by_contra hx
        exact hne (by
          intro c hc
          have := List.any_eq_false.mp (by simpa using hx) c hc
          simpa using this)
      cases p with
      | mk ip fp => simp [parseWeight, hf, this]

theorem parseWeight_of_no_digit {l : List Char} (h : l.any Char.isDigit = false) :
    parseWeight l = none := by
  have := parseWeight_isSome l
  rw [h] at this
  cases hp : parseWeight l with
  | none => rfl
  | some v => rw [hp] at this; simp at this

/-- Whitespace characters are not digits, so a line skipped by the trim
guard would not have parsed anyway. -/
theorem lineEmit_eq_parseWeight (l : List Char) :
    lineEmit l = parseWeight l := by
  unfold lineEmit
  by_cases h : l.any (fun c => !(jsWhitespace c)) = true
  · rw [if_pos h]
  · rw [if_neg h]
    have hall : ∀ c ∈ l, jsWhitespace c = true := by
      intro c hc
      by_contra hx
      apply h
      rw [List.any_eq_true]
      refine ⟨c, hc, ?_⟩
      simp only [Bool.not_eq_true] at hx
      simp [hx]
    have hnodigit : l.any Char.isDigit = false := by
      rw [List.any_eq_false]
      intro c hc
      have hws := hall c hc
      simp only [jsWhitespace, Bool.or_eq_true, decide_eq_true_eq, or_assoc] at hws
      rcases hws with rfl | rfl | rfl | rfl | rfl | rfl <;> decide
    exact (parseWeight_of_no_digit hnodigit).symm

/-- Claim C7: feeding one complete terminator-free line followed by a
newline to a fresh framer emits exactly the `parseWeight` reading of the
line (so a line with no digits emits nothing, and the parse succeeds
exactly when the line contains a digit); the line "ST,GS,+ 12400 kg"
yields the reading 12400 and the line "0" yields the valid reading 0. -/
theorem parseWeight_concrete_12400 :
    parseWeight "ST,GS,+ 12400 kg".data = some 12400 := by
  have h1 : findFirstNumeric "ST,GS,+ 12400 kg".data =
      some (['1', '2', '4', '0', '0'], []) := by decide
  have h2 : digitsToNat ['1', '2', '4', '0', '0'] = 12400 := by decide
  simp [parseWeight, h1, decValue, h2, digitsToNat]

theorem parseWeight_concrete_zero : parseWeight "0".data = some 0 := by
  have h1 : findFirstNumeric "0".data = some (['0'], []) := by decide
  simp [parseWeight, h1, decValue, digitsToNat]

theorem processData_completed_line {line : List Char} (hline : TermFree line) :
    processData [] (line ++ ['\n']) = ([], (parseWeight line).toList) := by
  have hnl : isTerm '\n' = true := by decide
  have hsplit : splitRuns (line ++ ['\n']) = [line, []] := by
    rw [splitRuns_termfree_prepend hline ['\n'], splitRuns_cons_term [] hnl]
    simp [splitRuns, List.modifyHead, List.dropWhile]
  cases hp : parseWeight line with
  | none =>
      simp [processData, hsplit, List.filterMap_cons, lineEmit_eq_parseWeight, hp]
  | some v =>
      simp [processData, hsplit, List.filterMap_cons, lineEmit_eq_parseWeight, hp]

/-- Claim C7: feeding one complete terminator-free line followed by a
newline to a fresh framer emits exactly the `parseWeight` reading of the
line, the parse succeeds exactly when the line contains a digit (so a line
with no digits emits nothing); the line "ST,GS,+ 12400 kg" yields the
reading 12400 and the framer emits it, and the line "0" yields the valid
reading 0. -/
theorem parseWeight_line_spec :
    (∀ line : List Char, TermFree line →
      processData [] (line ++ ['\n']) = ([], (parseWeight line).toList)) ∧
    (∀ line : List Char, (parseWeight line).isSome = line.any Char.isDigit) ∧
    parseWeight "ST,GS,+ 12400 kg".data = some 12400 ∧
    parseWeight "0".data = some 0 ∧
    processData [] ("ST,GS,+ 12400 kg".data ++ ['\n']) = ([], [12400]) ∧
    processData [] ("0".data ++ ['\n']) = ([], [0]) := by
  refine ⟨fun line hline => processData_completed_line hline, parseWeight_isSome,
    parseWeight_concrete_12400, parseWeight_concrete_zero, ?_, ?_⟩
  · rw [processData_completed_line (by decide), parseWeight_concrete_12400]
    rfl
  · rw [processData_completed_line (by decide), parseWeight_concrete_zero]
    rfl

/-- Witness for C7 on the concrete line "77": the framer emits exactly its
parsed reading. -/
theorem parseWeight_line_spec_witness :
    processData [] ("77".data ++ ['\n']) = ([], (parseWeight "77".data).toList) :=
  parseWeight_line_spec.1 "77".data (by decide)

end Asphalt
